import Mathlib

/-!
Verification of the logo-download utility in download-logos-simple.py.

The script is embedded shallowly: Python strings become List Char, the
filesystem becomes an association list from file names to byte lists, and
the network becomes an oracle assigning one result to every HTTP request.
Console output and the two fixed sleeps are not modelled; they carry no
data the claims mention.  Library calls of the Python standard library
(re.sub, urllib.parse.urlparse, os.path.splitext) are embedded from the
CPython sources they invoke, as documented on each definition.
-/

set_option maxRecDepth 8000

/-- Shorthand turning a string literal into the character list the model works on. -/
def s2l (s : String) : List Char := s.data

/-! ## Character classes -/

/-- ASCII letter, as matched by the regex ranges a-z and A-Z in sanitize_filename
and by the isascii/isalpha scheme check of urllib.parse. -/
def isAsciiAlphaChar (c : Char) : Bool :=
  ('a' ≤ c && c ≤ 'z') || ('A' ≤ c && c ≤ 'Z')

/-- ASCII digit, as matched by the regex range 0-9. -/
def isAsciiDigitChar (c : Char) : Bool :=
  '0' ≤ c && c ≤ '9'

/-- The character set kept unchanged by sanitize_filename: the regex there is
r[^a-zA-Z0-9\-_.] with a substitution of every match by an underscore, so a
character is kept exactly when it lies in a-z, A-Z, 0-9, hyphen, underscore, dot. -/
def isSafeChar (c : Char) : Bool :=
  isAsciiAlphaChar c || isAsciiDigitChar c || c = '-' || c = '_' || c = '.'

/-- ASCII lowercasing of one character.  The Python code lowercases a candidate
extension with str.lower before comparing it to the six ASCII image extensions;
for that membership test full Unicode lowercasing and ASCII lowercasing agree,
because no non-ASCII character lowercases to a single character of those
extensions. -/
def lowerChar (c : Char) : Char :=
  if 'A' ≤ c && c ≤ 'Z' then Char.ofNat (c.toNat + 32) else c

/-! ## sanitize_filename (download-logos-simple.py lines 19-21) -/

/-- Embeds sanitize_filename: re.sub with the single-character class
[^a-zA-Z0-9\-_.] replaces each character outside the class by an underscore,
which on strings is exactly a character-wise map. -/
def sanitize_filename (s : List Char) : List Char :=
  s.map (fun c => if isSafeChar c then c else '_')

/-! ## urllib.parse.urlparse, restricted to the path component

The script only reads parsed.path.  The definitions below follow CPython
urllib/parse.py (urlsplit, _splitnetloc, _splitparams): strip leading
C0-control-or-space characters, remove every tab, carriage return and line
feed, peel off a syntactically valid scheme, peel off a netloc after a
leading double slash, drop fragment and query, and split parameters off the
last path segment when the scheme uses parameters.  The ValueError paths of
CPython (mismatched square brackets or an invalid bracketed host in the
netloc, exotic non-ASCII netlocs) are not modelled; on such URLs the script
would crash before any attempt, and no claim exercises them. -/

/-- C0 control characters and space, the set lstripped from a URL by urlsplit. -/
def isC0OrSpace (c : Char) : Bool := c.toNat ≤ 32

/-- Tab, carriage return and line feed, removed everywhere in a URL by urlsplit. -/
def isUnsafeByte (c : Char) : Bool := c = '\t' || c = '\r' || c = '\n'

/-- Characters allowed after the first letter of a URL scheme. -/
def isSchemeChar (c : Char) : Bool :=
  isAsciiAlphaChar c || isAsciiDigitChar c || c = '+' || c = '-' || c = '.'

/-- Scheme splitting of urlsplit: if a colon exists, the part before the first
colon is non-empty, starts with an ASCII letter and continues with scheme
characters, the scheme is removed and returned lowercased; otherwise the
scheme is empty and the URL is unchanged. -/
def splitScheme (url : List Char) : List Char × List Char :=
  let pre := url.takeWhile (fun c => c != ':')
  match pre with
  | [] => ([], url)
  | c :: cs =>
    if pre.length < url.length ∧ isAsciiAlphaChar c ∧ cs.all isSchemeChar then
      (pre.map lowerChar, url.drop (pre.length + 1))
    else ([], url)

/-- Netloc splitting of urlsplit via _splitnetloc: after a leading double
slash the netloc extends to the first slash, question mark or hash. -/
def splitNetloc (rest : List Char) : List Char × List Char :=
  match rest with
  | '/' :: '/' :: r =>
    let nl := r.takeWhile (fun c => c != '/' && c != '?' && c != '#')
    (nl, r.drop nl.length)
  | _ => ([], rest)

/-- The uses_params table of urllib.parse: schemes whose URLs carry
semicolon-separated parameters in the last path segment. -/
def uses_params : List (List Char) :=
  [[], s2l "ftp", s2l "hdl", s2l "prospero", s2l "http", s2l "imap",
   s2l "https", s2l "shttp", s2l "rtsp", s2l "rtspu", s2l "sip",
   s2l "sips", s2l "mms", s2l "sftp", s2l "tel"]

/-- The final path segment: the suffix after the last slash, or the whole
string when no slash occurs. -/
def lastSegment (p : List Char) : List Char :=
  ((p.reverse).takeWhile (fun c => c != '/')).reverse

/-- Parameter splitting of urlparse via _splitparams: drop a semicolon suffix
of the last path segment (of the whole path when it has no slash).  When the
relevant region holds no semicolon the path is unchanged, which the takeWhile
formulation yields directly. -/
def splitparams (p : List Char) : List Char :=
  let seg := lastSegment p
  p.take (p.length - seg.length) ++ seg.takeWhile (fun c => c != ';')

/-- The path component of urllib.parse.urlparse, assembled from the pieces
above in the order CPython applies them. -/
def urlparse_path (url : List Char) : List Char :=
  let u0 := (url.dropWhile isC0OrSpace).filter (fun c => !(isUnsafeByte c))
  let (scheme, r1) := splitScheme u0
  let r2 := (splitNetloc r1).2
  let r3 := r2.takeWhile (fun c => c != '#')
  let path0 := r3.takeWhile (fun c => c != '?')
  if scheme ∈ uses_params then splitparams path0 else path0

/-! ## os.path.splitext and get_extension_from_url (lines 23-35) -/

/-- Extension extraction of posixpath.splitext, phrased on the final path
segment: CPython takes the last dot after the last slash and returns the
suffix from that dot, unless every character of the segment strictly before
the dot is itself a dot (the leading-dot rule for hidden files), in which
case the extension is empty.  It is also empty when the segment has no dot. -/
def extCore (seg : List Char) : List Char :=
  let rext := (seg.reverse).takeWhile (fun c => c != '.')
  if rext.length = seg.length then []
  else if (seg.take (seg.length - rext.length - 1)).any (fun c => c != '.') then
    '.' :: rext.reverse
  else []

/-- The extension part of os.path.splitext on a POSIX path. -/
def splitext_ext (p : List Char) : List Char :=
  extCore (lastSegment p)

/-- The six accepted image extensions of get_extension_from_url, compared
lowercased. -/
def image_extensions : List (List Char) :=
  [s2l ".png", s2l ".jpg", s2l ".jpeg", s2l ".svg", s2l ".webp", s2l ".gif"]

/-- Embeds get_extension_from_url: parse the URL, take the splitext extension
of the path; an empty extension falls back to .png, an extension whose
lowercasing is not among the six image extensions falls back to .png, and
otherwise the extension is returned as found. -/
def get_extension_from_url (url : List Char) : List Char :=
  let path := urlparse_path url
  let ext := splitext_ext path
  if ext = [] then s2l ".png"
  else if ext.map lowerChar ∉ image_extensions then s2l ".png"
  else ext

/-- Extension extraction exactly as the specification words it: the substring
from the last dot to the end of the final path segment, empty when the
segment has no dot.  This is the spec-side definition used to compare the
specified resolver with the implemented one. -/
def rawLastDotExt (seg : List Char) : List Char :=
  let rext := (seg.reverse).takeWhile (fun c => c != '.')
  if rext.length = seg.length then [] else '.' :: rext.reverse

/-- The extension resolver exactly as the specification describes it: parse
the URL, take the substring from the last dot to the end of the final path
segment of the path component, default to .png when it is empty or when its
lowercasing is not among the six image extensions, and otherwise return it
as found. -/
def resolveExtSpec (url : List Char) : List Char :=
  let ext := rawLastDotExt (lastSegment (urlparse_path url))
  if ext = [] then s2l ".png"
  else if ext.map lowerChar ∉ image_extensions then s2l ".png"
  else ext

/-- Extension extraction as the amended claim words it: as the substring from
the last dot of the final segment, except that the extension counts as empty
when every character of the segment before that dot is itself a dot (in
particular when the dot is the first character of the segment). -/
def extCoreAmended (seg : List Char) : List Char :=
  let rext := (seg.reverse).takeWhile (fun c => c != '.')
  if rext.length = seg.length then []
  else if (seg.take (seg.length - rext.length - 1)).all (fun c => c == '.') then []
  else '.' :: rext.reverse

/-- The extension resolver as the amended claim describes it, built from the
amended extraction rule and the unchanged default logic. -/
def resolveExtSpecAmended (url : List Char) : List Char :=
  let ext := extCoreAmended (lastSegment (urlparse_path url))
  if ext = [] then s2l ".png"
  else if ext.map lowerChar ∉ image_extensions then s2l ".png"
  else ext

/-! ## Filesystem model

The token-logo directory is a finite map from file names to byte contents,
kept as an association list with unique keys: a write replaces any previous
entry for the same name, matching open with mode wb, which creates the file
or truncates an existing one. -/

/-- The output directory as a map from file names to byte contents. -/
abbrev FS := List (List Char × List Nat)

/-- Writing a file: open(path, wb) followed by a single write replaces
whatever was stored under that name. -/
def fsWrite (fs : FS) (name : List Char) (body : List Nat) : FS :=
  (name, body) :: fs.filter (fun p => !(p.1 == name))

/-- Existence test of Path.exists on the model directory. -/
def pathExists (fs : FS) (name : List Char) : Bool :=
  fs.any (fun p => p.1 == name)

/-! ## HTTP requests and the network oracle -/

/-- One HTTP GET attempt as the script builds it: urllib.request.Request on
the URL with the five added headers and the timeout handed to urlopen. -/
structure Request where
  url : List Char
  userAgent : List Char
  accept : List Char
  acceptLanguage : List Char
  dnt : List Char
  connection : List Char
  timeout : Nat
deriving DecidableEq

/-- The Accept header added to every request (line 67). -/
def acceptHeader : List Char := s2l "image/webp,image/apng,image/svg+xml,image/*,*/*;q=0.8"

/-- The Accept-Language header added to every request (line 68). -/
def acceptLanguageHeader : List Char := s2l "en-US,en;q=0.9"

/-- First user agent of the list (line 56): Chrome on macOS. -/
def ua_chrome_mac : List Char :=
  s2l "Mozilla/5.0 (Macintosh; Intel Mac OS X 10_15_7) AppleWebKit/537.36 (KHTML, like Gecko) Chrome/120.0.0.0 Safari/537.36"

/-- Second user agent of the list (line 57): Chrome on Windows. -/
def ua_chrome_win : List Char :=
  s2l "Mozilla/5.0 (Windows NT 10.0; Win64; x64) AppleWebKit/537.36 (KHTML, like Gecko) Chrome/120.0.0.0 Safari/537.36"

/-- Third user agent of the list (line 58): curl. -/
def ua_curl : List Char := s2l "curl/7.68.0"

/-- Fourth user agent of the list (line 59): wget. -/
def ua_wget : List Char := s2l "wget/1.21.3"

/-- The fixed ordered user-agent list of download_file (lines 55-60). -/
def user_agents : List (List Char) := [ua_chrome_mac, ua_chrome_win, ua_curl, ua_wget]

/-- The request one attempt sends: the URL, the given user agent, the four
fixed auxiliary headers and the fixed 30-second timeout (lines 65-73). -/
def mkRequest (url ua : List Char) : Request :=
  ⟨url, ua, acceptHeader, acceptLanguageHeader, s2l "1", s2l "keep-alive", 30⟩

/-- The four requests a full retry sequence for a URL would send, in order. -/
def requestsFor (url : List Char) : List Request :=
  user_agents.map (fun ua => mkRequest url ua)

/-- What the network does with one request.  success is urlopen returning a
response of the given status whose read() returns the given body; readError
is urlopen returning a response of the given status whose read() raises
mid-body; httpError is urlopen raising urllib.error.HTTPError with the given
code; urlError is urllib.error.URLError; otherError is any other exception
inside the attempt. -/
inductive HttpResult where
  | success (status : Nat) (body : List Nat)
  | readError (status : Nat)
  | httpError (code : Nat)
  | urlError
  | otherError
deriving DecidableEq

/-- An attempt succeeds exactly when urlopen returns status 200 and the body
read completes. -/
def isOk200 : HttpResult → Bool
  | HttpResult.success s _ => s == 200
  | _ => false

/-! ## download_file (lines 37-102) -/

/-- Everything one call of download_file produces: the returned boolean, the
directory afterwards, the requests actually sent, and the file writes
actually performed in order (each as name and bytes). -/
structure FetchResult where
  ok : Bool
  fs : FS
  reqs : List Request
  writes : List (List Char × List Nat)
deriving DecidableEq

/-- Prepends one failed attempt to the record of a retry continuation. -/
def consAttempt (q : Request) (r : FetchResult) : FetchResult :=
  ⟨r.ok, r.fs, q :: r.reqs, r.writes⟩

/-- Prepends an attempt that opened the destination (creating it empty) and
then failed during the body read. -/
def consWriteAttempt (safe : List Char) (q : Request) (r : FetchResult) : FetchResult :=
  ⟨r.ok, r.fs, q :: r.reqs, (safe, []) :: r.writes⟩

/-- The retry loop of download_file (lines 62-102), one step per user agent.
A status-200 response whose read completes writes the body and returns True
at once.  A status-200 response whose read raises has already opened the
destination with open(filepath, wb), truncating it to an empty file, before
read() raises; the exception is caught and the loop continues on the changed
directory.  Any other status and every exception leave the directory alone
and continue.  An exhausted list returns False. -/
def tryAgents (net : Request → HttpResult) (url safe : List Char) :
    List (List Char) → FS → FetchResult
  | [], fs => ⟨false, fs, [], []⟩
  | ua :: rest, fs =>
    match net (mkRequest url ua) with
    | HttpResult.success s body =>
      if s = 200 then
        ⟨true, fsWrite fs safe body, [mkRequest url ua], [(safe, body)]⟩
      else consAttempt (mkRequest url ua) (tryAgents net url safe rest fs)
    | HttpResult.readError s =>
      if s = 200 then
        consWriteAttempt safe (mkRequest url ua)
          (tryAgents net url safe rest (fsWrite fs safe []))
      else consAttempt (mkRequest url ua) (tryAgents net url safe rest fs)
    | HttpResult.httpError _ =>
      consAttempt (mkRequest url ua) (tryAgents net url safe rest fs)
    | HttpResult.urlError =>
      consAttempt (mkRequest url ua) (tryAgents net url safe rest fs)
    | HttpResult.otherError =>
      consAttempt (mkRequest url ua) (tryAgents net url safe rest fs)

/-- Embeds download_file: a falsy URL returns False at once; then the safe
file name is built from the sanitized name and the resolved extension; an
existing destination returns True without any request; otherwise the retry
loop runs over the four user agents. -/
def download_file (net : Request → HttpResult) (fs : FS) (url filename : List Char) :
    FetchResult :=
  if url.isEmpty then ⟨false, fs, [], []⟩
  else
    let extension := get_extension_from_url url
    let safe_filename := sanitize_filename filename ++ extension
    if pathExists fs safe_filename then ⟨true, fs, [], []⟩
    else tryAgents net url safe_filename user_agents fs

/-- The destination file name download_file derives for a URL and a display
name: sanitized name plus resolved extension. -/
def destPath (url filename : List Char) : List Char :=
  sanitize_filename filename ++ get_extension_from_url url

/-! ## main (lines 104-137) -/

/-- One input record: the display symbol and the optional logo URL (absent
models both a missing key and null). -/
structure TokenRecord where
  symbol : List Char
  logoUrl : Option (List Char)
deriving DecidableEq

/-- The truthiness test token.get(logoUrl) of line 112: the key is present
and its value is a non-empty string. -/
def hasLogoUrl (t : TokenRecord) : Bool :=
  match t.logoUrl with
  | some u => !u.isEmpty
  | none => false

/-- The run state of main: the three counters, the directory, and the
requests sent so far. -/
structure RunState where
  downloaded : Nat
  skipped : Nat
  failed : Nat
  fs : FS
  reqs : List Request
deriving DecidableEq

/-- The state main starts from: zero counters over a given directory. -/
def initState : RunState := ⟨0, 0, 0, [], []⟩

/-- One iteration of the loop of main (lines 111-121): records with a truthy
logoUrl are fetched and counted downloaded or failed from the returned
boolean; all others are counted skipped without any fetch. -/
def processToken (net : Request → HttpResult) (st : RunState) (t : TokenRecord) : RunState :=
  if hasLogoUrl t then
    let r := download_file net st.fs (t.logoUrl.getD []) t.symbol
    if r.ok then ⟨st.downloaded + 1, st.skipped, st.failed, r.fs, st.reqs ++ r.reqs⟩
    else ⟨st.downloaded, st.skipped, st.failed + 1, r.fs, st.reqs ++ r.reqs⟩
  else ⟨st.downloaded, st.skipped + 1, st.failed, st.fs, st.reqs⟩

/-- The whole loop of main over the record list, in input order. -/
def runTokens (net : Request → HttpResult) (st : RunState) (toks : List TokenRecord) : RunState :=
  toks.foldl (processToken net) st

/-! ## Concrete oracles and records used by closed instances -/

/-- A network on which every request raises HTTPError 404. -/
def netAll404 : Request → HttpResult := fun _ => HttpResult.httpError 404

/-- A network on which every attempt raises an unexpected exception. -/
def netAllError : Request → HttpResult := fun _ => HttpResult.otherError

/-- A network whose first attempt (the macOS Chrome user agent) returns a
200 response that dies during the body read, and which 404s afterwards. -/
def netReadFail (q : Request) : HttpResult :=
  if q.userAgent = ua_chrome_mac then HttpResult.readError 200
  else HttpResult.httpError 404

/-- A network whose first attempt returns a 200 response that dies during
the body read and whose second attempt succeeds with body 7, 7. -/
def netReadFailThenOk (q : Request) : HttpResult :=
  if q.userAgent = ua_chrome_mac then HttpResult.readError 200
  else if q.userAgent = ua_chrome_win then HttpResult.success 200 [7, 7]
  else HttpResult.httpError 404

/-- A network that 404s the first three user agents and succeeds with body 9
for the fourth. -/
def netFourthOk (q : Request) : HttpResult :=
  if q.userAgent = ua_wget then HttpResult.success 200 [9]
  else HttpResult.httpError 404

/-- The end-to-end network: the good URL serves bytes 1, 2, 3 with status
200; every other URL 404s always. -/
def netC7 (q : Request) : HttpResult :=
  if q.url = s2l "http://good/a.png" then HttpResult.success 200 [1, 2, 3]
  else HttpResult.httpError 404

/-- End-to-end record one: symbol AAA with the good URL. -/
def recAAA : TokenRecord := ⟨s2l "AAA", some (s2l "http://good/a.png")⟩

/-- End-to-end record two: symbol BBB with an empty logo URL. -/
def recBBB : TokenRecord := ⟨s2l "BBB", some []⟩

/-- End-to-end record three: symbol CCC with the bad URL. -/
def recCCC : TokenRecord := ⟨s2l "CCC", some (s2l "http://bad/c.png")⟩

/-- The attempts the retry loop sends for a user-agent list: every request
up to and including the first fully successful one, or all of them. -/
def attemptsMade (net : Request → HttpResult) (url : List Char) :
    List (List Char) → List Request
  | [] => []
  | ua :: rest =>
    if isOk200 (net (mkRequest url ua)) then [mkRequest url ua]
    else mkRequest url ua :: attemptsMade net url rest

/-- The body of the first fully successful attempt for a user-agent list. -/
def firstSuccessBody (net : Request → HttpResult) (url : List Char) :
    List (List Char) → Option (List Nat)
  | [] => none
  | ua :: rest =>
    match net (mkRequest url ua) with
    | HttpResult.success s b =>
      if s = 200 then some b else firstSuccessBody net url rest
    | _ => firstSuccessBody net url rest

/-! ## Helper lemmas -/

/-- Writing twice to the same name keeps only the second write. -/
theorem fsWrite_fsWrite (fs : FS) (n : List Char) (b b2 : List Nat) :
    fsWrite (fsWrite fs n b) n b2 = fsWrite fs n b2 := by
  simp [fsWrite, List.filter_filter]

/-- A written name exists afterwards. -/
theorem pathExists_fsWrite (fs : FS) (n : List Char) (b : List Nat) :
    pathExists (fsWrite fs n b) n = true := by
  simp [pathExists, fsWrite]

/-- Dropping the head of getLast? when the tail is non-empty. -/
theorem getLast?_cons_of_ne {α : Type} (a : α) (l : List α) (h : l ≠ []) :
    (a :: l).getLast? = l.getLast? := by
  cases l with
  | nil => exact absurd rfl h
  | cons b t => simp [List.getLast?_cons_cons]

/-- dropLast distributes over a cons with non-empty tail. -/
theorem dropLast_cons_of_ne {α : Type} (a : α) (l : List α) (h : l ≠ []) :
    (a :: l).dropLast = a :: l.dropLast := by
  cases l with
  | nil => exact absurd rfl h
  | cons b t => rfl

/-- The boolean returned by the retry loop: some attempt in the list got a
fully read status-200 response. -/
theorem tryAgents_ok (net : Request → HttpResult) (url safe : List Char) :
    ∀ (uas : List (List Char)) (fs : FS),
      (tryAgents net url safe uas fs).ok
        = uas.any (fun ua => isOk200 (net (mkRequest url ua))) := by
  intro uas
  induction uas with
  | nil => intro fs; simp [tryAgents]
  | cons ua rest ih =>
    intro fs
    cases h : net (mkRequest url ua) with
    | success s body =>
      by_cases hs : s = 200
      · subst hs; simp [tryAgents, h, isOk200]
      · simp [tryAgents, h, isOk200, hs, consAttempt, ih]
    | readError s =>
      by_cases hs : s = 200
      · subst hs; simp [tryAgents, h, isOk200, consWriteAttempt, ih]
      · simp [tryAgents, h, isOk200, hs, consAttempt, ih]
    | httpError code => simp [tryAgents, h, isOk200, consAttempt, ih]
    | urlError => simp [tryAgents, h, isOk200, consAttempt, ih]
    | otherError => simp [tryAgents, h, isOk200, consAttempt, ih]

/-- The requests the retry loop sends are exactly the attempts up to and
including the first success. -/
theorem tryAgents_reqs (net : Request → HttpResult) (url safe : List Char) :
    ∀ (uas : List (List Char)) (fs : FS),
      (tryAgents net url safe uas fs).reqs = attemptsMade net url uas := by
  intro uas
  induction uas with
  | nil => intro fs; simp [tryAgents, attemptsMade]
  | cons ua rest ih =>
    intro fs
    cases h : net (mkRequest url ua) with
    | success s body =>
      by_cases hs : s = 200
      · subst hs; simp [tryAgents, h, attemptsMade, isOk200]
      · simp [tryAgents, h, attemptsMade, isOk200, hs, consAttempt, ih]
    | readError s =>
      by_cases hs : s = 200
      · subst hs; simp [tryAgents, h, attemptsMade, isOk200, consWriteAttempt, ih]
      · simp [tryAgents, h, attemptsMade, isOk200, hs, consAttempt, ih]
    | httpError code => simp [tryAgents, h, attemptsMade, isOk200, consAttempt, ih]
    | urlError => simp [tryAgents, h, attemptsMade, isOk200, consAttempt, ih]
    | otherError => simp [tryAgents, h, attemptsMade, isOk200, consAttempt, ih]

/-- No more attempts are made than user agents exist. -/
theorem attemptsMade_length_le (net : Request → HttpResult) (url : List Char) :
    ∀ uas : List (List Char), (attemptsMade net url uas).length ≤ uas.length := by
  intro uas
  induction uas with
  | nil => simp [attemptsMade]
  | cons ua rest ih =>
    by_cases h : isOk200 (net (mkRequest url ua))
    · simp [attemptsMade, h]
    · simp [attemptsMade, h]
      omega

/-- The attempts made form a prefix of the full four-request sequence. -/
theorem attemptsMade_take_eq (net : Request → HttpResult) (url : List Char) :
    ∀ uas : List (List Char),
      attemptsMade net url uas
        = (uas.map (fun ua => mkRequest url ua)).take (attemptsMade net url uas).length := by
  intro uas
  induction uas with
  | nil => simp [attemptsMade]
  | cons ua rest ih =>
    by_cases h : isOk200 (net (mkRequest url ua))
    · simp [attemptsMade, h]
    · simp only [attemptsMade, h, if_false, Bool.false_eq_true, List.map_cons,
        List.length_cons, List.take_succ_cons, List.cons.injEq, true_and]
      exact ih

/-- A failed retry loop leaves the directory unchanged, or unchanged up to an
empty file at the destination when some attempt died during a body read; every
write it performed was the empty write to the destination. -/
theorem tryAgents_fail (net : Request → HttpResult) (url safe : List Char) :
    ∀ (uas : List (List Char)) (fs : FS),
      (tryAgents net url safe uas fs).ok = false →
      ((tryAgents net url safe uas fs).fs = fs ∨
        (tryAgents net url safe uas fs).fs = fsWrite fs safe []) ∧
      (∀ w ∈ (tryAgents net url safe uas fs).writes, w = (safe, [])) := by
  intro uas
  induction uas with
  | nil => intro fs _; simp [tryAgents]
  | cons ua rest ih =>
    intro fs hf
    cases h : net (mkRequest url ua) with
    | success s body =>
      by_cases hs : s = 200
      · subst hs; simp [tryAgents, h] at hf
      · simp only [tryAgents, h, hs, if_false, consAttempt] at hf ⊢
        exact ih fs hf
    | readError s =>
      by_cases hs : s = 200
      · subst hs
        simp only [tryAgents, h, if_pos, consWriteAttempt] at hf ⊢
        obtain ⟨hfs, hw⟩ := ih (fsWrite fs safe []) hf
        refine ⟨?_, ?_⟩
        · rcases hfs with hfs | hfs
          · exact Or.inr hfs
          · exact Or.inr (by rw [hfs, fsWrite_fsWrite])
        · intro w hw2
          rcases List.mem_cons.mp hw2 with hw2 | hw2
          · exact hw2
          · exact hw w hw2
      · simp only [tryAgents, h, hs, if_false, consAttempt] at hf ⊢
        exact ih fs hf
    | httpError code =>
      simp only [tryAgents, h, consAttempt] at hf ⊢
      exact ih fs hf
    | urlError =>
      simp only [tryAgents, h, consAttempt] at hf ⊢
      exact ih fs hf
    | otherError =>
      simp only [tryAgents, h, consAttempt] at hf ⊢
      exact ih fs hf

/-- When no attempt dies during a body read, a failed retry loop leaves the
directory exactly as it was and performs no write at all. -/
theorem tryAgents_fail_clean (net : Request → HttpResult) (url safe : List Char) :
    ∀ (uas : List (List Char)) (fs : FS),
      (∀ ua ∈ uas, net (mkRequest url ua) ≠ HttpResult.readError 200) →
      (tryAgents net url safe uas fs).ok = false →
      (tryAgents net url safe uas fs).fs = fs ∧
      (tryAgents net url safe uas fs).writes = [] := by
  intro uas
  induction uas with
  | nil => intro fs _ _; simp [tryAgents]
  | cons ua rest ih =>
    intro fs hno hf
    have hno_head := hno ua (List.mem_cons_self ua rest)
    have hno_rest : ∀ u ∈ rest, net (mkRequest url u) ≠ HttpResult.readError 200 :=
      fun u hu => hno u (List.mem_cons_of_mem ua hu)
    cases h : net (mkRequest url ua) with
    | success s body =>
      by_cases hs : s = 200
      · subst hs; simp [tryAgents, h] at hf
      · simp only [tryAgents, h, hs, if_false, consAttempt] at hf ⊢
        exact ih fs hno_rest hf
    | readError s =>
      by_cases hs : s = 200
      · subst hs; exact absurd h hno_head
      · simp only [tryAgents, h, hs, if_false, consAttempt] at hf ⊢
        exact ih fs hno_rest hf
    | httpError code =>
      simp only [tryAgents, h, consAttempt] at hf ⊢
      exact ih fs hno_rest hf
    | urlError =>
      simp only [tryAgents, h, consAttempt] at hf ⊢
      exact ih fs hno_rest hf
    | otherError =>
      simp only [tryAgents, h, consAttempt] at hf ⊢
      exact ih fs hno_rest hf

/-- A successful retry loop ends with the directory holding the body of the
first fully successful attempt at the destination; that write is the last one
performed, and every earlier write was the empty write to the destination. -/
theorem tryAgents_success (net : Request → HttpResult) (url safe : List Char) :
    ∀ (uas : List (List Char)) (fs : FS),
      (tryAgents net url safe uas fs).ok = true →
      ∃ b, firstSuccessBody net url uas = some b ∧
        (tryAgents net url safe uas fs).fs = fsWrite fs safe b ∧
        (tryAgents net url safe uas fs).writes.getLast? = some (safe, b) ∧
        ∀ w ∈ (tryAgents net url safe uas fs).writes.dropLast, w = (safe, []) := by
  intro uas
  induction uas with
  | nil => intro fs h; simp [tryAgents] at h
  | cons ua rest ih =>
    intro fs hok
    cases h : net (mkRequest url ua) with
    | success s body =>
      by_cases hs : s = 200
      · subst hs
        refine ⟨body, ?_, ?_, ?_, ?_⟩ <;> simp [tryAgents, h, firstSuccessBody]
      · simp only [tryAgents, h, hs, if_false, consAttempt] at hok ⊢
        obtain ⟨b, h1, h2, h3, h4⟩ := ih fs hok
        exact ⟨b, by simp [firstSuccessBody, h, hs, h1], h2, h3, h4⟩
    | readError s =>
      by_cases hs : s = 200
      · subst hs
        simp only [tryAgents, h, if_pos, consWriteAttempt] at hok ⊢
        obtain ⟨b, h1, h2, h3, h4⟩ := ih (fsWrite fs safe []) hok
        have hne : (tryAgents net url safe rest (fsWrite fs safe [])).writes ≠ [] := by
          intro hnil; rw [hnil] at h3; simp at h3
        refine ⟨b, ?_, ?_, ?_, ?_⟩
        · simp [firstSuccessBody, h, h1]
        · rw [h2, fsWrite_fsWrite]
        · rw [getLast?_cons_of_ne _ _ hne]; exact h3
        · rw [dropLast_cons_of_ne _ _ hne]
          intro w hw
          rcases List.mem_cons.mp hw with hw | hw
          · exact hw
          · exact h4 w hw
      · simp only [tryAgents, h, hs, if_false, consAttempt] at hok ⊢
        obtain ⟨b, h1, h2, h3, h4⟩ := ih fs hok
        exact ⟨b, by simp [firstSuccessBody, h, h1], h2, h3, h4⟩
    | httpError code =>
      simp only [tryAgents, h, consAttempt] at hok ⊢
      obtain ⟨b, h1, h2, h3, h4⟩ := ih fs hok
      exact ⟨b, by simp [firstSuccessBody, h, h1], h2, h3, h4⟩
    | urlError =>
      simp only [tryAgents, h, consAttempt] at hok ⊢
      obtain ⟨b, h1, h2, h3, h4⟩ := ih fs hok
      exact ⟨b, by simp [firstSuccessBody, h, h1], h2, h3, h4⟩
    | otherError =>
      simp only [tryAgents, h, consAttempt] at hok ⊢
      obtain ⟨b, h1, h2, h3, h4⟩ := ih fs hok
      exact ⟨b, by simp [firstSuccessBody, h, h1], h2, h3, h4⟩

/-- On the network on which every attempt raises, the retry loop fails after
sending all requests and touching nothing. -/
theorem tryAgents_allError (url safe : List Char) :
    ∀ (uas : List (List Char)) (fs : FS),
      tryAgents netAllError url safe uas fs
        = ⟨false, fs, uas.map (fun ua => mkRequest url ua), []⟩ := by
  intro uas
  induction uas with
  | nil => intro fs; simp [tryAgents]
  | cons ua rest ih => intro fs; simp [tryAgents, netAllError, consAttempt, ih]

/-- download_file on an existing destination: immediate success, nothing else. -/
theorem download_file_exists (net : Request → HttpResult) (fs : FS) (url filename : List Char)
    (hu : url.isEmpty = false) (hex : pathExists fs (destPath url filename) = true) :
    download_file net fs url filename = ⟨true, fs, [], []⟩ := by
  simp only [destPath] at hex
  simp [download_file, hu, hex]

/-- download_file on a fresh destination and non-empty URL runs the retry loop. -/
theorem download_file_run (net : Request → HttpResult) (fs : FS) (url filename : List Char)
    (hu : url.isEmpty = false) (hex : pathExists fs (destPath url filename) = false) :
    download_file net fs url filename
      = tryAgents net url (destPath url filename) user_agents fs := by
  simp only [destPath] at hex
  simp [download_file, destPath, hu, hex]

/-- A successful download implies the URL was non-empty. -/
theorem download_file_ok_url (net : Request → HttpResult) (fs : FS) (url filename : List Char)
    (hok : (download_file net fs url filename).ok = true) : url.isEmpty = false := by
  cases hu : url.isEmpty
  · rfl
  · simp [download_file, hu] at hok

/-- A successful download leaves the destination existing on disk. -/
theorem download_file_ok_exists (net : Request → HttpResult) (fs : FS) (url filename : List Char)
    (hok : (download_file net fs url filename).ok = true) :
    pathExists (download_file net fs url filename).fs (destPath url filename) = true := by
  have hu := download_file_ok_url net fs url filename hok
  cases hex : pathExists fs (destPath url filename)
  · rw [download_file_run net fs url filename hu hex] at hok ⊢
    obtain ⟨b, _, hfs, _, _⟩ :=
      tryAgents_success net url (destPath url filename) user_agents fs hok
    rw [hfs]
    exact pathExists_fsWrite fs (destPath url filename) b
  · rw [download_file_exists net fs url filename hu hex]
    exact hex

/-- A truthy logoUrl field yields a non-empty URL string. -/
theorem hasLogoUrl_getD (t : TokenRecord) (h : hasLogoUrl t = true) :
    (t.logoUrl.getD []).isEmpty = false := by
  unfold hasLogoUrl at h
  cases hl : t.logoUrl <;> rw [hl] at h <;> simp_all [Option.getD]

/-- Each loop iteration increases the counter total by exactly one. -/
theorem processToken_sum (net : Request → HttpResult) (st : RunState) (t : TokenRecord) :
    (processToken net st t).downloaded + (processToken net st t).skipped
      + (processToken net st t).failed
      = st.downloaded + st.skipped + st.failed + 1 := by
  by_cases h : hasLogoUrl t
  · by_cases hok : (download_file net st.fs (t.logoUrl.getD []) t.symbol).ok <;>
      simp [processToken, h, hok] <;> omega
  · simp [processToken, h]; omega

/-- The counter total after the loop is the start total plus the record count. -/
theorem runTokens_sum (net : Request → HttpResult) :
    ∀ (toks : List TokenRecord) (st : RunState),
      (runTokens net st toks).downloaded + (runTokens net st toks).skipped
        + (runTokens net st toks).failed
        = st.downloaded + st.skipped + st.failed + toks.length := by
  intro toks
  induction toks with
  | nil => intro st; simp [runTokens]
  | cons t rest ih =>
    intro st
    have hstep := processToken_sum net st t
    calc (runTokens net st (t :: rest)).downloaded + (runTokens net st (t :: rest)).skipped
          + (runTokens net st (t :: rest)).failed
        = (runTokens net (processToken net st t) rest).downloaded
          + (runTokens net (processToken net st t) rest).skipped
          + (runTokens net (processToken net st t) rest).failed := rfl
      _ = (processToken net st t).downloaded + (processToken net st t).skipped
          + (processToken net st t).failed + rest.length := ih (processToken net st t)
      _ = st.downloaded + st.skipped + st.failed + (t :: rest).length := by
          rw [hstep]; simp; omega

/-- Each loop iteration never decreases any counter. -/
theorem processToken_mono (net : Request → HttpResult) (st : RunState) (t : TokenRecord) :
    st.downloaded ≤ (processToken net st t).downloaded ∧
    st.skipped ≤ (processToken net st t).skipped ∧
    st.failed ≤ (processToken net st t).failed := by
  by_cases h : hasLogoUrl t
  · by_cases hok : (download_file net st.fs (t.logoUrl.getD []) t.symbol).ok <;>
      simp [processToken, h, hok]
  · simp [processToken, h]

/-- The loop never decreases any counter. -/
theorem runTokens_mono (net : Request → HttpResult) :
    ∀ (toks : List TokenRecord) (st : RunState),
      st.downloaded ≤ (runTokens net st toks).downloaded ∧
      st.skipped ≤ (runTokens net st toks).skipped ∧
      st.failed ≤ (runTokens net st toks).failed := by
  intro toks
  induction toks with
  | nil => intro st; exact ⟨le_refl _, le_refl _, le_refl _⟩
  | cons t rest ih =>
    intro st
    have h1 := processToken_mono net st t
    have h2 := ih (processToken net st t)
    exact ⟨le_trans h1.1 h2.1, le_trans h1.2.1 h2.2.1, le_trans h1.2.2 h2.2.2⟩

/-- On the all-raising network, starting from an empty directory, every record
with a URL is counted failed, every record without one skipped, nothing is
downloaded and the directory stays empty. -/
theorem runTokens_allError :
    ∀ (toks : List TokenRecord) (st : RunState), st.fs = [] →
      (runTokens netAllError st toks).downloaded = st.downloaded ∧
      (runTokens netAllError st toks).skipped
        = st.skipped + (toks.filter (fun t => !hasLogoUrl t)).length ∧
      (runTokens netAllError st toks).failed
        = st.failed + (toks.filter (fun t => hasLogoUrl t)).length ∧
      (runTokens netAllError st toks).fs = [] := by
  intro toks
  induction toks with
  | nil => intro st hfs; simp [runTokens, hfs]
  | cons t rest ih =>
    intro st hfs
    by_cases h : hasLogoUrl t
    · have hurl : (t.logoUrl.getD []).isEmpty = false := hasLogoUrl_getD t h
      have hrun : download_file netAllError st.fs (t.logoUrl.getD []) t.symbol
          = tryAgents netAllError (t.logoUrl.getD [])
              (destPath (t.logoUrl.getD []) t.symbol) user_agents st.fs := by
        refine download_file_run netAllError st.fs _ _ hurl ?_
        rw [hfs]; rfl
      have hta := tryAgents_allError (t.logoUrl.getD [])
        (destPath (t.logoUrl.getD []) t.symbol) user_agents st.fs
      have hstep : processToken netAllError st t
          = ⟨st.downloaded, st.skipped, st.failed + 1, st.fs, st.reqs
              ++ user_agents.map (fun ua => mkRequest (t.logoUrl.getD []) ua)⟩ := by
        simp [processToken, h, hrun, hta]
      have := ih ⟨st.downloaded, st.skipped, st.failed + 1, st.fs, st.reqs
          ++ user_agents.map (fun ua => mkRequest (t.logoUrl.getD []) ua)⟩ hfs
      have hrw : runTokens netAllError st (t :: rest)
          = runTokens netAllError ⟨st.downloaded, st.skipped, st.failed + 1, st.fs, st.reqs
              ++ user_agents.map (fun ua => mkRequest (t.logoUrl.getD []) ua)⟩ rest := by
        show runTokens netAllError (processToken netAllError st t) rest = _
        rw [hstep]
      rw [hrw]
      simp only [List.filter_cons, h] at *
      refine ⟨this.1, ?_, ?_, this.2.2.2⟩
      · simpa using this.2.1
      · rw [this.2.2.1]; simp; omega
    · have hstep : processToken netAllError st t
          = ⟨st.downloaded, st.skipped + 1, st.failed, st.fs, st.reqs⟩ := by
        simp [processToken, h]
      have := ih ⟨st.downloaded, st.skipped + 1, st.failed, st.fs, st.reqs⟩ hfs
      have hrw : runTokens netAllError st (t :: rest)
          = runTokens netAllError ⟨st.downloaded, st.skipped + 1, st.failed, st.fs, st.reqs⟩ rest := by
        show runTokens netAllError (processToken netAllError st t) rest = _
        rw [hstep]
      rw [hrw]
      simp only [List.filter_cons, h] at *
      refine ⟨this.1, ?_, ?_, this.2.2.2⟩
      · rw [this.2.1]; simp; omega
      · simpa using this.2.2.1

/-- The dot-avoiding any test is the negation of the all-dots test. -/
theorem any_ne_eq_not_all_eq (l : List Char) :
    l.any (fun c => c != '.') = !(l.all (fun c => c == '.')) := by
  induction l with
  | nil => rfl
  | cons c t ih =>
    rw [List.any_cons, List.all_cons, ih]
    simp [Bool.not_and, bne]

/-- The splitext extraction rule equals the amended wording of the claim. -/
theorem extCore_eq_amended (seg : List Char) : extCore seg = extCoreAmended seg := by
  unfold extCore extCoreAmended
  by_cases h : ((seg.reverse).takeWhile (fun c => c != '.')).length = seg.length
  · simp [h]
  · simp only [h, if_false]
    rw [any_ne_eq_not_all_eq]
    cases hall : (seg.take
        (seg.length - ((seg.reverse).takeWhile (fun c => c != '.')).length - 1)).all
        (fun c => c == '.') <;> simp

/-! ## Claim C1 -/

/-- C1, counterexample: a fetch whose first attempt receives a 200 response
that dies during the body read, and whose remaining attempts 404, returns
failure, yet the destination file CEX.png, which did not exist before, exists
afterwards: open(filepath, wb) created it empty before the read failed.  This
refutes the claim that a failed fetch never leaves a file behind. -/
theorem C1_failed_fetch_cex :
    (download_file netReadFail [] (s2l "http://cex.example/logo.png") (s2l "CEX")).ok = false ∧
    pathExists [] (s2l "CEX.png") = false ∧
    pathExists (download_file netReadFail [] (s2l "http://cex.example/logo.png") (s2l "CEX")).fs
      (s2l "CEX.png") = true :=
  ⟨by decide, by decide, by decide⟩

/-- C1, amended: a fetch that returns failure leaves the directory unchanged,
or changed only by an empty file at the destination path; and when no attempt
received a 200 response whose body read then failed, a failed fetch leaves the
directory exactly unchanged and performs no write at all. -/
theorem C1_failed_fetch_amended (net : Request → HttpResult) (fs : FS) (url filename : List Char)
    (hfail : (download_file net fs url filename).ok = false) :
    ((download_file net fs url filename).fs = fs ∨
      (download_file net fs url filename).fs = fsWrite fs (destPath url filename) []) ∧
    ((∀ q : Request, net q ≠ HttpResult.readError 200) →
      (download_file net fs url filename).fs = fs ∧
      (download_file net fs url filename).writes = []) := by
  cases hu : url.isEmpty with
  | true => simp [download_file, hu]
  | false =>
    cases hex : pathExists fs (destPath url filename) with
    | true =>
      rw [download_file_exists net fs url filename hu hex] at hfail
      simp at hfail
    | false =>
      rw [download_file_run net fs url filename hu hex] at hfail ⊢
      refine ⟨(tryAgents_fail net url (destPath url filename) user_agents fs hfail).1, ?_⟩
      intro hno
      exact tryAgents_fail_clean net url (destPath url filename) user_agents fs
        (fun ua _ => hno (mkRequest url ua)) hfail

/-- C1, witness: the amended theorem applied to the all-404 network on an
empty directory. -/
theorem C1_failed_fetch_amended_w :
    ((download_file netAll404 [] (s2l "http://w1/x.png") (s2l "W1")).ok = false) ∧
    (((download_file netAll404 [] (s2l "http://w1/x.png") (s2l "W1")).fs = [] ∨
        (download_file netAll404 [] (s2l "http://w1/x.png") (s2l "W1")).fs
          = fsWrite [] (destPath (s2l "http://w1/x.png") (s2l "W1")) []) ∧
      ((∀ q : Request, netAll404 q ≠ HttpResult.readError 200) →
        (download_file netAll404 [] (s2l "http://w1/x.png") (s2l "W1")).fs = [] ∧
        (download_file netAll404 [] (s2l "http://w1/x.png") (s2l "W1")).writes = [])) :=
  ⟨by decide,
   C1_failed_fetch_amended netAll404 [] (s2l "http://w1/x.png") (s2l "W1") (by decide)⟩

/-! ## Claim C2 -/

/-- C2, counterexample: on the URL https://x.com/a/.jpg the specified
algorithm (substring from the last dot to the end of the final path segment,
kept when it is an accepted image extension) yields .jpg, but the code,
through the leading-dot rule of os.path.splitext, yields .png.  This refutes
the claim that the resolver returns what the described algorithm returns. -/
theorem C2_extension_cex :
    get_extension_from_url (s2l "https://x.com/a/.jpg") = s2l ".png" ∧
    resolveExtSpec (s2l "https://x.com/a/.jpg") = s2l ".jpg" ∧
    s2l ".png" ≠ s2l ".jpg" :=
  ⟨by decide, by decide, by decide⟩

/-- C2, amended: the resolver behaves as described, with the extension
extraction amended by the splitext leading-dot rule: the extracted extension
counts as empty whenever every character of the final segment before its last
dot is itself a dot.  The spec examples hold, including case preservation of
an accepted uppercase extension. -/
theorem C2_extension_amended :
    (∀ url : List Char, get_extension_from_url url = resolveExtSpecAmended url) ∧
    get_extension_from_url (s2l "https://x.com/a/b.jpg") = s2l ".jpg" ∧
    get_extension_from_url (s2l "https://x.com/a/b") = s2l ".png" ∧
    get_extension_from_url (s2l "https://x.com/a/b.exe") = s2l ".png" ∧
    get_extension_from_url (s2l "https://x.com/a/b.SVG") = s2l ".SVG" := by
  refine ⟨?_, by decide, by decide, by decide, by decide⟩
  intro url
  simp only [get_extension_from_url, resolveExtSpecAmended, splitext_ext, extCore_eq_amended]

/-! ## Claim C3 -/

/-- C3: the sanitizer preserves length, outputs only characters of the safe
set a-z, A-Z, 0-9, hyphen, underscore, dot, and is the identity on strings
already inside the set. -/
theorem C3_sanitizer (s : List Char) :
    (sanitize_filename s).length = s.length ∧
    (∀ c ∈ sanitize_filename s, isSafeChar c = true) ∧
    ((∀ c ∈ s, isSafeChar c = true) → sanitize_filename s = s) := by
  refine ⟨by simp [sanitize_filename], ?_, ?_⟩
  · intro c hc
    rw [sanitize_filename, List.mem_map] at hc
    obtain ⟨a, _, rfl⟩ := hc
    by_cases h : isSafeChar a
    · simp [h]
    · simp [h]; decide
  · intro h
    have haux : ∀ l : List Char, (∀ c ∈ l, isSafeChar c = true) → sanitize_filename l = l := by
      intro l
      induction l with
      | nil => intro _; rfl
      | cons c t ih =>
        intro hl
        have hc := hl c (List.mem_cons_self c t)
        have ht := fun x hx => hl x (List.mem_cons_of_mem c hx)
        simp only [sanitize_filename, List.map_cons] at ih ⊢
        rw [if_pos hc, ih ht]
    exact haux s h

/-- C3, witness: the safe string ab-c.txt is fixed by the sanitizer, and a
string with a space and a slash keeps its length. -/
theorem C3_sanitizer_w :
    (∀ c ∈ s2l "ab-c.txt", isSafeChar c = true) ∧
    sanitize_filename (s2l "ab-c.txt") = s2l "ab-c.txt" ∧
    (sanitize_filename (s2l "a b/c")).length = (s2l "a b/c").length :=
  ⟨by decide, (C3_sanitizer (s2l "ab-c.txt")).2.2 (by decide), (C3_sanitizer (s2l "a b/c")).1⟩

/-! ## Claim C4 -/

/-- C4: a fetch of a non-empty URL whose destination already exists reports
success at once with no request and no write; and after any successful fetch,
repeating the fetch on the resulting directory reports success with no
request and no write on any network whatsoever, so a rerun never re-downloads. -/
theorem C4_idempotent :
    (∀ (net : Request → HttpResult) (fs : FS) (url filename : List Char),
      url.isEmpty = false → pathExists fs (destPath url filename) = true →
      download_file net fs url filename = ⟨true, fs, [], []⟩) ∧
    (∀ (net net2 : Request → HttpResult) (fs : FS) (url filename : List Char),
      (download_file net fs url filename).ok = true →
      download_file net2 (download_file net fs url filename).fs url filename
        = ⟨true, (download_file net fs url filename).fs, [], []⟩) := by
  refine ⟨fun net fs url filename hu hex => download_file_exists net fs url filename hu hex, ?_⟩
  intro net net2 fs url filename hok
  exact download_file_exists net2 (download_file net fs url filename).fs url filename
    (download_file_ok_url net fs url filename hok)
    (download_file_ok_exists net fs url filename hok)

/-- C4, witness: immediate success on an existing destination under the
all-404 network, and a no-request rerun after the successful end-to-end fetch
of the good URL. -/
theorem C4_idempotent_w :
    ((s2l "http://w4/x.png").isEmpty = false) ∧
    (pathExists [(s2l "W4.png", [1])] (destPath (s2l "http://w4/x.png") (s2l "W4")) = true) ∧
    (download_file netAll404 [(s2l "W4.png", [1])] (s2l "http://w4/x.png") (s2l "W4")
      = ⟨true, [(s2l "W4.png", [1])], [], []⟩) ∧
    ((download_file netC7 [] (s2l "http://good/a.png") (s2l "AAA")).ok = true) ∧
    (download_file netAll404 (download_file netC7 [] (s2l "http://good/a.png") (s2l "AAA")).fs
        (s2l "http://good/a.png") (s2l "AAA")
      = ⟨true, (download_file netC7 [] (s2l "http://good/a.png") (s2l "AAA")).fs, [], []⟩) :=
  ⟨by decide, by decide,
   C4_idempotent.1 netAll404 [(s2l "W4.png", [1])] (s2l "http://w4/x.png") (s2l "W4")
     (by decide) (by decide),
   by decide,
   C4_idempotent.2 netC7 netAll404 [] (s2l "http://good/a.png") (s2l "AAA") (by decide)⟩

/-! ## Claim C5 -/

/-- C5, counterexample: under a network whose first attempt receives a 200
response dying during the body read and whose second attempt succeeds with
body 7, 7, the fetch succeeds but performs two disk writes, the first of them
an empty file, refuting that the successful attempt body is the only content
ever written and that it is written exactly once. -/
theorem C5_retry_cex :
    (download_file netReadFailThenOk [] (s2l "http://cex.example/logo.png") (s2l "CEX")).ok
      = true ∧
    (download_file netReadFailThenOk [] (s2l "http://cex.example/logo.png") (s2l "CEX")).writes
      = [(s2l "CEX.png", []), (s2l "CEX.png", [7, 7])] ∧
    (download_file netReadFailThenOk [] (s2l "http://cex.example/logo.png") (s2l "CEX")).writes.length
      ≠ 1 :=
  ⟨by decide, by decide, by decide⟩

/-- C5, amended: for a non-empty URL and a fresh destination the fetcher sends
at most 4 requests forming a prefix of the fixed ordered user-agent sequence
with identical auxiliary headers and timeout; it succeeds exactly when some
attempt yields a fully read 200, in which case the destination ends up
holding the body of the first such attempt, that body is the final write, and
every earlier write (one per preceding attempt that lost a 200 body
mid-read) is an empty write to the same destination; on failure every write
performed was such an empty write. -/
theorem C5_retry_amended (net : Request → HttpResult) (fs : FS) (url filename : List Char)
    (hu : url.isEmpty = false)
    (hex : pathExists fs (destPath url filename) = false) :
    ((download_file net fs url filename).reqs.length ≤ 4 ∧
      (download_file net fs url filename).reqs
        = (requestsFor url).take (download_file net fs url filename).reqs.length) ∧
    ((download_file net fs url filename).ok
      = (requestsFor url).any (fun q => isOk200 (net q))) ∧
    ((download_file net fs url filename).ok = true →
      ∃ b, firstSuccessBody net url user_agents = some b ∧
        (download_file net fs url filename).fs = fsWrite fs (destPath url filename) b ∧
        (download_file net fs url filename).writes.getLast? = some (destPath url filename, b) ∧
        ∀ w ∈ (download_file net fs url filename).writes.dropLast,
          w = (destPath url filename, [])) ∧
    ((download_file net fs url filename).ok = false →
      ∀ w ∈ (download_file net fs url filename).writes, w = (destPath url filename, [])) := by
  rw [download_file_run net fs url filename hu hex]
  refine ⟨⟨?_, ?_⟩, ?_, ?_, ?_⟩
  · rw [tryAgents_reqs]
    exact attemptsMade_length_le net url user_agents
  · simp only [tryAgents_reqs, requestsFor]
    exact attemptsMade_take_eq net url user_agents
  · simp only [tryAgents_ok, requestsFor, List.any_map]
    rfl
  · intro hok
    exact tryAgents_success net url (destPath url filename) user_agents fs hok
  · intro hf
    exact (tryAgents_fail net url (destPath url filename) user_agents fs hf).2

/-- C5, witness: the amended theorem applied to the network that 404s the
first three user agents and serves body 9 to the fourth, on an empty
directory. -/
theorem C5_retry_amended_w :
    ((s2l "http://w5/x.png").isEmpty = false) ∧
    (pathExists ([] : FS) (destPath (s2l "http://w5/x.png") (s2l "W5")) = false) ∧
    (((download_file netFourthOk [] (s2l "http://w5/x.png") (s2l "W5")).reqs.length ≤ 4 ∧
        (download_file netFourthOk [] (s2l "http://w5/x.png") (s2l "W5")).reqs
          = (requestsFor (s2l "http://w5/x.png")).take
              (download_file netFourthOk [] (s2l "http://w5/x.png") (s2l "W5")).reqs.length) ∧
      ((download_file netFourthOk [] (s2l "http://w5/x.png") (s2l "W5")).ok
        = (requestsFor (s2l "http://w5/x.png")).any (fun q => isOk200 (netFourthOk q))) ∧
      ((download_file netFourthOk [] (s2l "http://w5/x.png") (s2l "W5")).ok = true →
        ∃ b, firstSuccessBody netFourthOk (s2l "http://w5/x.png") user_agents = some b ∧
          (download_file netFourthOk [] (s2l "http://w5/x.png") (s2l "W5")).fs
            = fsWrite [] (destPath (s2l "http://w5/x.png") (s2l "W5")) b ∧
          (download_file netFourthOk [] (s2l "http://w5/x.png") (s2l "W5")).writes.getLast?
            = some (destPath (s2l "http://w5/x.png") (s2l "W5"), b) ∧
          ∀ w ∈ (download_file netFourthOk [] (s2l "http://w5/x.png") (s2l "W5")).writes.dropLast,
            w = (destPath (s2l "http://w5/x.png") (s2l "W5"), [])) ∧
      ((download_file netFourthOk [] (s2l "http://w5/x.png") (s2l "W5")).ok = false →
        ∀ w ∈ (download_file netFourthOk [] (s2l "http://w5/x.png") (s2l "W5")).writes,
          w = (destPath (s2l "http://w5/x.png") (s2l "W5"), []))) :=
  ⟨by decide, by decide,
   C5_retry_amended netFourthOk [] (s2l "http://w5/x.png") (s2l "W5") (by decide) (by decide)⟩

/-! ## Claim C6 -/

/-- C6: a record whose logoUrl is absent or empty is counted skipped and
nothing else changes (no request, no write, no other counter), at whatever
position in the sequence the record sits. -/
theorem C6_skip_no_url (net : Request → HttpResult) :
    (∀ (st : RunState) (t : TokenRecord), hasLogoUrl t = false →
      processToken net st t
        = ⟨st.downloaded, st.skipped + 1, st.failed, st.fs, st.reqs⟩) ∧
    (∀ (st : RunState) (pre post : List TokenRecord) (t : TokenRecord), hasLogoUrl t = false →
      runTokens net st (pre ++ t :: post)
        = runTokens net
            ⟨(runTokens net st pre).downloaded, (runTokens net st pre).skipped + 1,
              (runTokens net st pre).failed, (runTokens net st pre).fs,
              (runTokens net st pre).reqs⟩ post) := by
  have h1 : ∀ (st : RunState) (t : TokenRecord), hasLogoUrl t = false →
      processToken net st t
        = ⟨st.downloaded, st.skipped + 1, st.failed, st.fs, st.reqs⟩ := by
    intro st t h
    simp [processToken, h]
  refine ⟨h1, ?_⟩
  intro st pre post t h
  show (pre ++ t :: post).foldl (processToken net) st = _
  rw [List.foldl_append, List.foldl_cons, h1 _ _ h]
  rfl

/-- C6, witness: the record BBB with an empty logo URL is skipped from the
initial state. -/
theorem C6_skip_no_url_w :
    hasLogoUrl recBBB = false ∧
    processToken netAll404 initState recBBB = ⟨0, 1, 0, [], []⟩ :=
  ⟨by decide, (C6_skip_no_url netAll404).1 initState recBBB (by decide)⟩

/-! ## Claim C7 -/

/-- C7: the three-record end-to-end run (AAA with the good URL, BBB with an
empty URL, CCC with the bad URL) ends with downloaded 1, skipped 1, failed 1,
and the directory holding exactly the one file AAA.png with the served bytes. -/
theorem C7_end_to_end :
    (runTokens netC7 initState [recAAA, recBBB, recCCC]).downloaded = 1 ∧
    (runTokens netC7 initState [recAAA, recBBB, recCCC]).skipped = 1 ∧
    (runTokens netC7 initState [recAAA, recBBB, recCCC]).failed = 1 ∧
    (runTokens netC7 initState [recAAA, recBBB, recCCC]).fs = [(s2l "AAA.png", [1, 2, 3])] :=
  ⟨by decide, by decide, by decide, by decide⟩

/-! ## Claim C8 -/

/-- C8: no per-record fetch outcome is fatal: on every network, whatever
pattern of HTTP errors, transport errors or other attempt exceptions it
produces, the loop is a total function that classifies every record, so the
counters always sum to the full record count; under the network on which
every attempt raises an exception, every record is still processed, tallied
failed or skipped, and the run completes with nothing downloaded. -/
theorem C8_errors_not_fatal :
    (∀ (net : Request → HttpResult) (st : RunState) (toks : List TokenRecord),
      (runTokens net st toks).downloaded + (runTokens net st toks).skipped
        + (runTokens net st toks).failed
        = st.downloaded + st.skipped + st.failed + toks.length) ∧
    (∀ toks : List TokenRecord,
      (runTokens netAllError initState toks).downloaded = 0 ∧
      (runTokens netAllError initState toks).skipped
        = (toks.filter (fun t => !hasLogoUrl t)).length ∧
      (runTokens netAllError initState toks).failed
        = (toks.filter (fun t => hasLogoUrl t)).length) := by
  refine ⟨fun net st toks => runTokens_sum net toks st, ?_⟩
  intro toks
  have h := runTokens_allError toks initState rfl
  exact ⟨h.1, by simpa [initState] using h.2.1, by simpa [initState] using h.2.2.1⟩

/-! ## Claim C9 -/

/-- C9: each loop iteration increments exactly one of the three counters;
after processing any prefix of n records the counters sum to the start total
plus min n (length); and every counter is non-decreasing over the run. -/
theorem C9_counter_invariant :
    (∀ (net : Request → HttpResult) (st : RunState) (t : TokenRecord),
      ((processToken net st t).downloaded = st.downloaded + 1 ∧
        (processToken net st t).skipped = st.skipped ∧
        (processToken net st t).failed = st.failed) ∨
      ((processToken net st t).downloaded = st.downloaded ∧
        (processToken net st t).skipped = st.skipped + 1 ∧
        (processToken net st t).failed = st.failed) ∨
      ((processToken net st t).downloaded = st.downloaded ∧
        (processToken net st t).skipped = st.skipped ∧
        (processToken net st t).failed = st.failed + 1)) ∧
    (∀ (net : Request → HttpResult) (st : RunState) (toks : List TokenRecord) (n : Nat),
      (runTokens net st (toks.take n)).downloaded + (runTokens net st (toks.take n)).skipped
        + (runTokens net st (toks.take n)).failed
        = st.downloaded + st.skipped + st.failed + min n toks.length) ∧
    (∀ (net : Request → HttpResult) (st : RunState) (toks : List TokenRecord),
      st.downloaded ≤ (runTokens net st toks).downloaded ∧
      st.skipped ≤ (runTokens net st toks).skipped ∧
      st.failed ≤ (runTokens net st toks).failed) := by
  refine ⟨?_, ?_, fun net st toks => runTokens_mono net toks st⟩
  · intro net st t
    by_cases h : hasLogoUrl t
    · by_cases hok : (download_file net st.fs (t.logoUrl.getD []) t.symbol).ok
      · exact Or.inl (by simp [processToken, h, hok])
      · exact Or.inr (Or.inr (by simp [processToken, h, hok]))
    · exact Or.inr (Or.inl (by simp [processToken, h]))
  · intro net st toks n
    rw [runTokens_sum net (toks.take n) st, List.length_take]

/-! ## Claim C10 -/

/-- C10: a fetch invoked on an empty URL returns false at once with no
request, no write and an unchanged directory; the skipped counter moves only
through the guard of the orchestrator, never through a fetch result; and a
fetch returning false is booked as failed by the orchestrator, leaving
skipped and downloaded alone. -/
theorem C10_empty_url_fetch :
    (∀ (net : Request → HttpResult) (fs : FS) (filename : List Char),
      download_file net fs [] filename = ⟨false, fs, [], []⟩) ∧
    (∀ (net : Request → HttpResult) (st : RunState) (t : TokenRecord),
      (processToken net st t).skipped = st.skipped + (if hasLogoUrl t then 0 else 1)) ∧
    (∀ (net : Request → HttpResult) (st : RunState) (t : TokenRecord), hasLogoUrl t = true →
      (download_file net st.fs (t.logoUrl.getD []) t.symbol).ok = false →
      (processToken net st t).failed = st.failed + 1 ∧
      (processToken net st t).skipped = st.skipped ∧
      (processToken net st t).downloaded = st.downloaded) := by
  refine ⟨fun net fs filename => rfl, ?_, ?_⟩
  · intro net st t
    by_cases h : hasLogoUrl t
    · by_cases hok : (download_file net st.fs (t.logoUrl.getD []) t.symbol).ok <;>
        simp [processToken, h, hok]
    · simp [processToken, h]
  · intro net st t h hfail
    simp [processToken, h, hfail]

/-- C10, witness: the empty-URL fetch fact at a concrete state, and the
failed-booking fact on the record CCC under the all-404 network. -/
theorem C10_empty_url_fetch_w :
    download_file netAll404 [] [] (s2l "X") = ⟨false, [], [], []⟩ ∧
    hasLogoUrl recCCC = true ∧
    (download_file netAll404 initState.fs (recCCC.logoUrl.getD []) recCCC.symbol).ok = false ∧
    (processToken netAll404 initState recCCC).failed = 1 ∧
    (processToken netAll404 initState recCCC).skipped = 0 :=
  ⟨C10_empty_url_fetch.1 netAll404 [] (s2l "X"), by decide, by decide,
   (C10_empty_url_fetch.2.2 netAll404 initState recCCC (by decide) (by decide)).1,
   (C10_empty_url_fetch.2.2 netAll404 initState recCCC (by decide) (by decide)).2.1⟩
